import Mathlib

/-!
Verification development for the insightsRepo ingestion server.

The embedding models the Go server sources:
  * `server/main.go` — `RepoHandler`, `getBranches`, `sendSSEMessage`
  * `server/handlers/handler.go` — `CommitsHandler`, `BranchesHandler`

External collaborators (the go-git library, the HTTP stack, the filesystem)
are modelled as an explicit environment (`RepoEnv`): clone/open/head/log
outcomes, the reference list the reference iterator yields, and the commit
sequence the log iterator yields (with per-commit read and diff-stat
outcomes).  The handler code itself is translated statement by statement.
-/

namespace InsightsRepo

/-! ## Go time formatting

go-git parses a commit signature timestamp with `time.Unix(ts, 0)` (zero
nanoseconds) placed in a fixed zone obtained from `time.Parse("-0700", tz)`,
whose location carries an empty zone name.  We model such a time value by its
broken-down civil fields plus the zone offset in minutes.
-/

structure GoTime where
  year : Nat
  month : Nat
  day : Nat
  hour : Nat
  minute : Nat
  second : Nat
  offsetMin : Int
deriving Repr, DecidableEq

/-- Zero-pad a natural number to two digits, as Go layout `01`/`04` does. -/
def pad2 (n : Nat) : String :=
  if n < 10 then "0" ++ toString n else toString n

/-- Zero-pad a natural number to four digits, as Go layout `2006` does. -/
def pad4 (n : Nat) : String :=
  if n < 10 then "000" ++ toString n
  else if n < 100 then "00" ++ toString n
  else if n < 1000 then "0" ++ toString n
  else toString n

def dateStr (t : GoTime) : String :=
  pad4 t.year ++ "-" ++ pad2 t.month ++ "-" ++ pad2 t.day

def clockStr (t : GoTime) : String :=
  pad2 t.hour ++ ":" ++ pad2 t.minute ++ ":" ++ pad2 t.second

def offsetSign (t : GoTime) : String :=
  if t.offsetMin < 0 then "-" else "+"

def offsetHours (t : GoTime) : Nat := t.offsetMin.natAbs / 60

def offsetMins (t : GoTime) : Nat := t.offsetMin.natAbs % 60

/-- Go `t.Format(time.RFC3339)`: layout `2006-01-02T15:04:05Z07:00`; a zero
offset prints `Z`, otherwise `±hh:mm`. -/
def formatRFC3339 (t : GoTime) : String :=
  dateStr t ++ "T" ++ clockStr t ++
    (if t.offsetMin = 0 then "Z"
     else offsetSign t ++ pad2 (offsetHours t) ++ ":" ++ pad2 (offsetMins t))

/-- The numeric zone in Go layout `-0700` form (`+0500`, `+0000`, ...). -/
def numericZone (t : GoTime) : String :=
  offsetSign t ++ pad2 (offsetHours t) ++ pad2 (offsetMins t)

/-- Go `t.String()`: layout `2006-01-02 15:04:05.999999999 -0700 MST`.
For go-git times the nanoseconds are zero, so the fractional part is omitted,
and the zone name is empty, so the `MST` slot falls back to the numeric
offset form. -/
def goTimeString (t : GoTime) : String :=
  dateStr t ++ " " ++ clockStr t ++ " " ++ numericZone t ++ " " ++ numericZone t

/-! ## Repository data -/

/-- One entry of `object.FileStats` as produced by `commit.Stats()`. -/
structure FileStat where
  name : String
  addition : Int
  deletion : Int
deriving Repr, DecidableEq

/-- A commit as the log iterator would hand it to the `ForEach` callback,
together with the outcomes of the external operations performed on it:
`readErr` (reading the commit object from storage; `some` aborts the
iterator) and `statsResult` (`c.Stats()`; `none` means the diff failed). -/
structure CommitInfo where
  hash : String
  authorName : String
  authorEmail : String
  message : String
  when : GoTime
  statsResult : Option (List FileStat)
  readErr : Option String
deriving Repr, DecidableEq

/-- Go `strings.HasPrefix`, byte-for-byte, expressed on character lists (the
reference names involved are ASCII, where bytes and characters coincide). -/
def listIsPre : List Char → List Char → Bool
  | [], _ => true
  | _ :: _, [] => false
  | p :: ps, c :: cs => p == c && listIsPre ps cs

/-- go-git `ReferenceName.IsBranch`: the full reference name begins with
`refs/heads/`. -/
def isBranch (name : String) : Bool :=
  listIsPre "refs/heads/".data name.data

/-- go-git `ReferenceName.Short` for a local branch reference: strip the
`refs/heads/` namespace (11 characters).  Non-branch names are returned
unchanged; the handlers only apply `Short` to branch references. -/
def shortName (name : String) : String :=
  if isBranch name then String.mk (name.data.drop 11) else name

/-- `getBranches` (main.go): iterate the repository references in iterator
order, appending the short name of every local branch reference.  No sorting
is applied. -/
def getBranches (refs : List String) : List String :=
  refs.foldl (fun acc r => if isBranch r then acc ++ [shortName r] else acc) []

/-! ## SSE events -/

/-- The `commit` event payload built in `RepoHandler`.  `modifications` is
`none` exactly when `c.Stats()` failed: the code only adds the key under
`if err == nil`, so on failure the key is absent from the JSON object. -/
structure CommitPayload where
  hash : String
  author : String
  email : String
  message : String
  date : String
  modifications : Option (List FileStat)
deriving Repr, DecidableEq

/-- A typed SSE event as sent by `sendSSEMessage` (event tag plus body). -/
inductive SSEEvent where
  | status (fields : List (String × String))
  | branches (names : List String)
  | commit (p : CommitPayload)
  | error (message : String)
  | complete (fields : List (String × String))
deriving Repr, DecidableEq

def isCommitEvt : SSEEvent → Bool
  | .commit _ => true
  | _ => false

def isBranchesEvt : SSEEvent → Bool
  | .branches _ => true
  | _ => false

def isErrorEvt : SSEEvent → Bool
  | .error _ => true
  | _ => false

def isCompleteEvt : SSEEvent → Bool
  | .complete _ => true
  | _ => false

/-- An event is terminal-shaped when it is an `error` or `complete` event. -/
def isTerminalEvt (e : SSEEvent) : Bool :=
  isErrorEvt e || isCompleteEvt e

/-- The commit payloads carried by a trace, in order. -/
def commitEvts (t : List SSEEvent) : List CommitPayload :=
  t.filterMap fun e =>
    match e with
    | .commit p => some p
    | _ => none

/-! ## The ingestion environment -/

/-- Outcomes of the external operations `RepoHandler` performs, in program
order.  `refsResult` is the outcome of `repo.References()` together with the
reference names its iterator yields (the iterator's own errors are discarded
by `getBranches`, so a partial list is simply a shorter list). -/
structure RepoEnv where
  repoURL : String
  dirExists : Bool
  cloneErr : Option String
  openErr : Option String
  headErr : Option String
  refsResult : Except String (List String)
  logErr : Option String
  commits : List CommitInfo
deriving Repr

/-- Drop a leading character-list pattern, or `none` when it is not there. -/
def dropPreChars : List Char → List Char → Option (List Char)
  | xs, [] => some xs
  | [], _ :: _ => none
  | x :: xs, p :: ps => if x == p then dropPreChars xs ps else none

/-- Go `strings.TrimSuffix s suf`: remove one trailing occurrence of `suf`
when present (checked on reversed character lists). -/
def trimSuffix (s suf : String) : String :=
  match dropPreChars s.data.reverse suf.data.reverse with
  | some r => String.mk r.reverse
  | none => s

/-- The last element of Go `strings.Split(url, "/")`: the characters after
the final `/` (the whole string when there is no `/`, empty on a trailing
`/`). -/
def lastSegment (url : String) : String :=
  String.mk (url.data.foldl (fun acc c => if c == '/' then [] else acc ++ [c]) [])

/-- `repoID := strings.TrimSuffix(parts[len(parts)-1], ".git")` where
`parts := strings.Split(req.RepoURL, "/")`. -/
def repoID (url : String) : String :=
  trimSuffix (lastSegment url) ".git"

/-- The commit payload built by the `ForEach` callback in `RepoHandler`. -/
def mkCommitPayload (c : CommitInfo) : CommitPayload :=
  { hash := c.hash
    author := c.authorName
    email := c.authorEmail
    message := c.message
    date := formatRFC3339 c.when
    modifications := c.statsResult }

/-- `iter.ForEach` over the log iterator: yields commits (emitting one commit
event each) until the iterator fails to read a commit object, in which case
iteration stops and the error is returned to the caller; the repository code
never skips a broken element.  Returns the emitted events and the error, if
any, that aborted the iteration. -/
def runWalk : List CommitInfo → List SSEEvent × Option String
  | [] => ([], none)
  | c :: rest =>
    match c.readErr with
    | some m => ([], some m)
    | none =>
      let r := runWalk rest
      (SSEEvent.commit (mkCommitPayload c) :: r.1, r.2)

/-- The `complete` event sent at the end of `RepoHandler`. -/
def completeEvt (env : RepoEnv) : SSEEvent :=
  SSEEvent.complete
    [("message", "Repository analysis complete"), ("repoId", repoID env.repoURL)]

/-- Lines 131–180 of main.go: the "Fetching commits history" status,
`repo.Log`, the `ForEach` walk, the error event when `ForEach` returned an
error, and the unconditional `complete` event. -/
def walkPhase (env : RepoEnv) : List SSEEvent :=
  SSEEvent.status [("message", "Fetching commits history")] ::
    match env.logErr with
    | some e => [SSEEvent.error ("Failed to get commit logs: " ++ e)]
    | none =>
      (runWalk env.commits).1 ++
        (match (runWalk env.commits).2 with
         | some m => [SSEEvent.error ("Error processing commits: " ++ m)]
         | none => []) ++
        [completeEvt env]

/-- Lines 118–129 of main.go: the "Fetching branches" status, then either a
`branches` event (on success) or an `error` event (on failure — note the
handler then continues to the commit phase either way). -/
def branchesPhase (env : RepoEnv) : List SSEEvent :=
  SSEEvent.status [("message", "Fetching branches")] ::
    ((match env.refsResult with
      | Except.error e => [SSEEvent.error ("Failed to get branches: " ++ e)]
      | Except.ok refs => [SSEEvent.branches (getBranches refs)]) ++
     walkPhase env)

/-- Lines 110–116 of main.go: `repo.Head()`; on failure an `error` event and
return. -/
def headPhase (env : RepoEnv) : List SSEEvent :=
  match env.headErr with
  | some e => [SSEEvent.error ("Failed to get HEAD reference: " ++ e)]
  | none => branchesPhase env

/-- `RepoHandler` (main.go), as the sequence of events it passes to
`sendSSEMessage`, after the SSE headers are set.  The Go code never consults
the result of a send, so this sequence is a pure function of the environment;
the sink-threaded version `RepoHandlerSink` below makes that explicit. -/
def RepoHandler (env : RepoEnv) : List SSEEvent :=
  SSEEvent.status
      [("message", "Starting repository processing"), ("repoId", repoID env.repoURL)] ::
    if env.dirExists then
      SSEEvent.status
          [("message", "Repository already exists, opening existing repository"),
           ("repoId", repoID env.repoURL)] ::
        match env.openErr with
        | some e => [SSEEvent.error ("Failed to open repository: " ++ e)]
        | none => headPhase env
    else
      SSEEvent.status [("message", "Cloning repository"), ("repoUrl", env.repoURL)] ::
        match env.cloneErr with
        | some e => [SSEEvent.error ("Clone failed: " ++ e)]
        | none =>
          SSEEvent.status
              [("message", "Repository cloned successfully"), ("repoId", repoID env.repoURL)] ::
            headPhase env

/-! ## The event sink

`sendSSEMessage` writes the `event:` line, the `data:` line and a flush via
`fmt.Fprintf` / `Flush`, discarding every return value: a write to a
disconnected client fails, but the failure is invisible to the caller.  We
model the sink as its connection state plus the list of events actually
delivered (`written`) and the list of all send attempts (`attempts`); the
boolean result of a send is returned, mirroring the error `fmt.Fprintf`
would report, and — like the Go code — never inspected by `RepoHandler`. -/

structure Sink where
  connected : Bool
  written : List SSEEvent
  attempts : List SSEEvent
deriving Repr, DecidableEq

/-- `sendSSEMessage` (main.go lines 200–212): attempt to transmit one event;
the transmission succeeds exactly when the consumer is still connected. -/
def sendSSEMessage (e : SSEEvent) (s : Sink) : Sink × Bool :=
  (⟨s.connected,
    if s.connected then s.written ++ [e] else s.written,
    s.attempts ++ [e]⟩,
   s.connected)

/-- One send with the result discarded, exactly as every call site in
`RepoHandler` does. -/
def send1 (e : SSEEvent) (s : Sink) : Sink :=
  (sendSSEMessage e s).1

/-- The `ForEach` walk threading the sink through each commit event send. -/
def runWalkSink : List CommitInfo → Sink → Sink × Option String
  | [], s => (s, none)
  | c :: rest, s =>
    match c.readErr with
    | some m => (s, some m)
    | none => runWalkSink rest (send1 (SSEEvent.commit (mkCommitPayload c)) s)

/-- Sink-threaded version of `walkPhase`. -/
def walkPhaseSink (env : RepoEnv) (s : Sink) : Sink :=
  let s1 := send1 (SSEEvent.status [("message", "Fetching commits history")]) s
  match env.logErr with
  | some e => send1 (SSEEvent.error ("Failed to get commit logs: " ++ e)) s1
  | none =>
    let r := runWalkSink env.commits s1
    let s2 :=
      match r.2 with
      | some m => send1 (SSEEvent.error ("Error processing commits: " ++ m)) r.1
      | none => r.1
    send1 (completeEvt env) s2

/-- Sink-threaded version of `branchesPhase`. -/
def branchesPhaseSink (env : RepoEnv) (s : Sink) : Sink :=
  let s1 := send1 (SSEEvent.status [("message", "Fetching branches")]) s
  let s2 :=
    match env.refsResult with
    | Except.error e => send1 (SSEEvent.error ("Failed to get branches: " ++ e)) s1
    | Except.ok refs => send1 (SSEEvent.branches (getBranches refs)) s1
  walkPhaseSink env s2

/-- Sink-threaded version of `headPhase`. -/
def headPhaseSink (env : RepoEnv) (s : Sink) : Sink :=
  match env.headErr with
  | some e => send1 (SSEEvent.error ("Failed to get HEAD reference: " ++ e)) s
  | none => branchesPhaseSink env s

/-- `RepoHandler` threading the sink state through every `sendSSEMessage`
call, in the source's control flow.  No branch of the Go code consults the
sink, so the attempt sequence cannot depend on the connection state. -/
def RepoHandlerSink (env : RepoEnv) (s : Sink) : Sink :=
  let s1 := send1
    (SSEEvent.status
      [("message", "Starting repository processing"), ("repoId", repoID env.repoURL)]) s
  if env.dirExists then
    let s2 := send1
      (SSEEvent.status
        [("message", "Repository already exists, opening existing repository"),
         ("repoId", repoID env.repoURL)]) s1
    match env.openErr with
    | some e => send1 (SSEEvent.error ("Failed to open repository: " ++ e)) s2
    | none => headPhaseSink env s2
  else
    let s2 := send1
      (SSEEvent.status [("message", "Cloning repository"), ("repoUrl", env.repoURL)]) s1
    match env.cloneErr with
    | some e => send1 (SSEEvent.error ("Clone failed: " ++ e)) s2
    | none =>
      let s3 := send1
        (SSEEvent.status
          [("message", "Repository cloned successfully"), ("repoId", repoID env.repoURL)]) s2
      headPhaseSink env s3

/-! ## Derived read-only endpoints (handler.go)

A Go slice distinguishes `nil` (declared `var xs []T`, marshalled as JSON
`null`) from an allocated empty slice (`xs := []T{}`, marshalled as `[]`);
`append` on a nil slice allocates.  `json.NewEncoder(w).Encode` writes the
marshalled value followed by a newline. -/

inductive GoSlice (α : Type) where
  | nilSlice : GoSlice α
  | alloc : List α → GoSlice α
deriving Repr, DecidableEq

/-- Go `append(s, a)`. -/
def goAppend {α : Type} : GoSlice α → α → GoSlice α
  | .nilSlice, a => .alloc [a]
  | .alloc l, a => .alloc (l ++ [a])

/-- `encoding/json` marshalling of a slice, abstracted over the element
encoder (no claim depends on the element encoding). -/
def goMarshalSlice {α : Type} (enc : α → String) : GoSlice α → String
  | .nilSlice => "null"
  | .alloc [] => "[]"
  | .alloc (x :: xs) =>
      "[" ++ xs.foldl (fun acc a => acc ++ "," ++ enc a) (enc x) ++ "]"

/-- The map built per commit in `CommitsHandler` (a `map[string]string`;
`encoding/json` marshals map keys in sorted order).  The date field uses
`c.Author.When.String()`, Go's default time rendering. -/
def commitEntry (c : CommitInfo) : List (String × String) :=
  [("author", c.authorName),
   ("date", goTimeString c.when),
   ("hash", c.hash),
   ("message", c.message)]

/-- `iter.ForEach` as used in `CommitsHandler` (handler.go lines 82–91): the
callback always returns nil, iteration stops at the first unreadable commit
and the `ForEach` error value is discarded, so the yielded prefix is kept. -/
def yieldedCommits : List CommitInfo → List CommitInfo
  | [] => []
  | c :: rest =>
    match c.readErr with
    | some _ => []
    | none => c :: yieldedCommits rest

/-- `CommitsHandler` (handler.go lines 68–95) after a successful
open/head/log: `var commits []map[string]string` (a nil slice), one append
per yielded commit, then `json.NewEncoder(w).Encode(commits)`. -/
def CommitsHandler (enc : List (String × String) → String)
    (cs : List CommitInfo) : String :=
  goMarshalSlice enc
    ((yieldedCommits cs).foldl (fun s c => goAppend s (commitEntry c)) GoSlice.nilSlice)
    ++ "\n"

/-- `BranchesHandler` (handler.go lines 97–121) after a successful open:
`branches := []string{}` (an allocated empty slice), one append per local
branch reference, then `json.NewEncoder(w).Encode(branches)`. -/
def BranchesHandler (enc : String → String) (refs : List String) : String :=
  goMarshalSlice enc
    (refs.foldl (fun s r => if isBranch r then goAppend s (shortName r) else s)
      (GoSlice.alloc []))
    ++ "\n"

/-! ## The acquisition race (Repository Store)

`RepoHandler` materializes a repository with a check-then-act sequence:
`os.Stat(repoPath)` and then, if the directory was absent, `git.PlainClone`
into it (main.go lines 74–108).  Two concurrent requests for the same
`repoID` interleave these two steps over the shared store state.  A clone
attempt against a directory that meanwhile came to exist fails (go-git
refuses to clone into an existing repository), ending that request with a
`Clone failed` error event instead of a usable handle. -/

structure StoreState where
  dirExists : Bool
  cloneAttempts : Nat
deriving Repr, DecidableEq

inductive AcqPhase where
  | start
  | decided (sawExists : Bool)
  | gotHandle
  | failed
deriving Repr, DecidableEq

/-- One step of a single request's acquisition protocol: first the
`os.Stat` existence check, then the action the check selected
(`git.PlainOpen` when the directory existed, `git.PlainClone` otherwise). -/
def acqStep (g : StoreState) (p : AcqPhase) : StoreState × AcqPhase :=
  match p with
  | .start => (g, .decided g.dirExists)
  | .decided sawExists =>
    if sawExists then
      (g, .gotHandle)
    else if g.dirExists then
      ({ g with cloneAttempts := g.cloneAttempts + 1 }, .failed)
    else
      ({ dirExists := true, cloneAttempts := g.cloneAttempts + 1 }, .gotHandle)
  | .gotHandle => (g, .gotHandle)
  | .failed => (g, .failed)

/-- Two requests for the same identifier interleaved over the shared store. -/
structure RaceState where
  store : StoreState
  first : AcqPhase
  second : AcqPhase
deriving Repr, DecidableEq

/-- Run one scheduled step (`true` steps the first request). -/
def raceStep (st : RaceState) (pickFirst : Bool) : RaceState :=
  if pickFirst then
    let r := acqStep st.store st.first
    { st with store := r.1, first := r.2 }
  else
    let r := acqStep st.store st.second
    { st with store := r.1, second := r.2 }

/-- Run a whole schedule. -/
def runSched (st : RaceState) (sched : List Bool) : RaceState :=
  sched.foldl raceStep st

/-- Both requests start before their existence checks, over an initially
empty store. -/
def raceInit : RaceState :=
  { store := { dirExists := false, cloneAttempts := 0 }
    first := AcqPhase.start
    second := AcqPhase.start }

/-! ## Trace decomposition helpers -/

/-- Acquisition succeeded: the branch taken (open when the directory exists,
clone otherwise) did not fail. -/
def acqOk (env : RepoEnv) : Prop :=
  (if env.dirExists then env.openErr else env.cloneErr) = none

instance (env : RepoEnv) : Decidable (acqOk env) := by
  unfold acqOk
  infer_instance

/-- The status events of a successful acquisition, by branch. -/
def acquirePre (env : RepoEnv) : List SSEEvent :=
  SSEEvent.status
      [("message", "Starting repository processing"), ("repoId", repoID env.repoURL)] ::
    if env.dirExists then
      [SSEEvent.status
        [("message", "Repository already exists, opening existing repository"),
         ("repoId", repoID env.repoURL)]]
    else
      [SSEEvent.status [("message", "Cloning repository"), ("repoUrl", env.repoURL)],
       SSEEvent.status
         [("message", "Repository cloned successfully"), ("repoId", repoID env.repoURL)]]

/-- The single event of the branch-listing step. -/
def branchesMid (env : RepoEnv) : List SSEEvent :=
  match env.refsResult with
  | Except.error e => [SSEEvent.error ("Failed to get branches: " ++ e)]
  | Except.ok refs => [SSEEvent.branches (getBranches refs)]

/-- Everything a session that reaches the log walk emits before the
"Fetching commits history" status. -/
def streamPre (env : RepoEnv) : List SSEEvent :=
  acquirePre env ++
    (SSEEvent.status [("message", "Fetching branches")] :: branchesMid env)

/-- Everything such a session emits from the first commit event on: the
walked commit events, the error event if the iterator aborted, and the
unconditional `complete` event. -/
def walkTail (env : RepoEnv) : List SSEEvent :=
  (runWalk env.commits).1 ++
    (match (runWalk env.commits).2 with
     | some m => [SSEEvent.error ("Error processing commits: " ++ m)]
     | none => []) ++
    [completeEvt env]

/-- Lexicographic (Go byte-wise) strict order on character lists; the branch
names involved are ASCII, where character order and byte order coincide. -/
def strLtChars : List Char → List Char → Bool
  | [], [] => false
  | [], _ :: _ => true
  | _ :: _, [] => false
  | a :: as, b :: bs =>
    if a.toNat < b.toNat then true
    else if b.toNat < a.toNat then false
    else strLtChars as bs

def strLt (a b : String) : Bool :=
  strLtChars a.data b.data

/-- Lexicographically non-decreasing (by Go byte-wise string order). -/
def sortedLe : List String → Bool
  | [] => true
  | [_] => true
  | a :: b :: t => (!strLt b a) && sortedLe (b :: t)

/-! ## Concrete test data -/

def tADate : GoTime := ⟨2024, 3, 5, 10, 20, 30, 300⟩

/-- A readable commit with successfully computed stats. -/
def cGood : CommitInfo :=
  ⟨"aaa", "Ann", "ann@x.io", "first commit", tADate,
   some [⟨"main.go", 3, 1⟩], none⟩

/-- A readable commit whose `Stats()` call fails. -/
def cNoStats : CommitInfo :=
  ⟨"bbb", "Bob", "bob@x.io", "second commit", tADate, none, none⟩

/-- A commit whose object cannot be read: the log iterator aborts on it. -/
def cBroken : CommitInfo :=
  ⟨"ddd", "Dan", "dan@x.io", "broken commit", tADate, none,
   some "object not found"⟩

/-- A readable commit positioned after the broken one. -/
def cAfter : CommitInfo :=
  ⟨"ccc", "Cyn", "cyn@x.io", "third commit", tADate, some [], none⟩

/-- A healthy environment: repository already materialized, two branches,
two readable commits. -/
def envHealthy : RepoEnv :=
  ⟨"https://github.com/u/r.git", true, none, none, none,
   Except.ok ["refs/heads/main", "refs/heads/dev"], none, [cGood, cNoStats]⟩

/-- Walk aborts on the second commit. -/
def envWalkAbort : RepoEnv :=
  ⟨"https://github.com/u/r.git", true, none, none, none,
   Except.ok ["refs/heads/main"], none, [cGood, cBroken]⟩

/-- Walk aborts on the second commit; a readable commit follows it. -/
def envBrokenMiddle : RepoEnv :=
  ⟨"https://github.com/u/r.git", true, none, none, none,
   Except.ok ["refs/heads/main"], none, [cGood, cBroken, cAfter]⟩

/-- Branch enumeration fails; one readable commit. -/
def envBranchFail : RepoEnv :=
  ⟨"https://github.com/u/r.git", true, none, none, none,
   Except.error "reference storage unreadable", none, [cGood]⟩

/-- Reference set containing branches (out of lexicographic iterator order),
a tag, a remote-tracking reference and HEAD. -/
def c8refs : List String :=
  ["refs/heads/zeta", "refs/tags/v1.0", "refs/remotes/origin/main",
   "refs/heads/alpha", "HEAD"]

/-! ## Walk lemmas -/

theorem runWalk_all_readable (cs : List CommitInfo)
    (h : ∀ c ∈ cs, c.readErr = none) :
    runWalk cs = (cs.map fun c => SSEEvent.commit (mkCommitPayload c), none) := by
  induction cs with
  | nil => rfl
  | cons c rest ih =>
    have hc : c.readErr = none := h c (List.mem_cons_self c rest)
    have ih2 := ih fun x hx => h x (List.mem_cons_of_mem c hx)
    simp [runWalk, hc, ih2]

theorem runWalk_split (pre : List CommitInfo) (c : CommitInfo)
    (post : List CommitInfo) (m : String)
    (hpre : ∀ p ∈ pre, p.readErr = none) (hc : c.readErr = some m) :
    runWalk (pre ++ c :: post) =
      (pre.map fun p => SSEEvent.commit (mkCommitPayload p), some m) := by
  induction pre with
  | nil => simp [runWalk, hc]
  | cons p rest ih =>
    have hp : p.readErr = none := hpre p (List.mem_cons_self p rest)
    have ih2 := ih fun x hx => hpre x (List.mem_cons_of_mem p hx)
    simp [runWalk, hp, ih2]

theorem runWalk_mem (cs : List CommitInfo) :
    ∀ e ∈ (runWalk cs).1, ∃ c ∈ cs, e = SSEEvent.commit (mkCommitPayload c) := by
  induction cs with
  | nil => simp [runWalk]
  | cons c rest ih =>
    cases hc : c.readErr with
    | some m => simp [runWalk, hc]
    | none =>
      intro e he
      simp only [runWalk, hc, List.mem_cons] at he
      rcases he with he | he
      · exact ⟨c, List.mem_cons_self c rest, he⟩
      · rcases ih e he with ⟨d, hd, hde⟩
        exact ⟨d, List.mem_cons_of_mem c hd, hde⟩

theorem runWalk_isCommit (cs : List CommitInfo) :
    ∀ e ∈ (runWalk cs).1, isCommitEvt e = true := by
  intro e he
  rcases runWalk_mem cs e he with ⟨c, _, rfl⟩
  rfl

/-! ## Event classification lemmas -/

theorem commitEvts_append (a b : List SSEEvent) :
    commitEvts (a ++ b) = commitEvts a ++ commitEvts b := by
  simp [commitEvts]

theorem commitEvts_map_commit (cs : List CommitInfo) :
    commitEvts (cs.map fun c => SSEEvent.commit (mkCommitPayload c)) =
      cs.map mkCommitPayload := by
  induction cs with
  | nil => rfl
  | cons c rest ih =>
    simp only [List.map_cons, commitEvts, List.filterMap_cons] at ih ⊢
    rw [ih]

theorem mem_commitEvts (p : CommitPayload) (t : List SSEEvent) :
    p ∈ commitEvts t ↔ SSEEvent.commit p ∈ t := by
  simp only [commitEvts, List.mem_filterMap]
  constructor
  · rintro ⟨e, he, hep⟩
    cases e <;> simp_all
  · intro hp
    exact ⟨SSEEvent.commit p, hp, rfl⟩

/-! ## Reaching the streaming phase -/

theorem streamPre_eq (env : RepoEnv) (hacq : acqOk env) (hhead : env.headErr = none) :
    RepoHandler env = streamPre env ++ walkPhase env := by
  unfold acqOk at hacq
  unfold RepoHandler streamPre acquirePre headPhase branchesPhase branchesMid
  cases hdir : env.dirExists <;> rw [hdir] at hacq <;> simp only [if_true, if_false,
    Bool.false_eq_true, Bool.true_eq_false, ite_true, ite_false] at hacq <;>
    rw [hacq, hhead] <;> cases env.refsResult <;> simp

theorem walkPhase_eq (env : RepoEnv) (hlog : env.logErr = none) :
    walkPhase env = SSEEvent.status [("message", "Fetching commits history")] :: walkTail env := by
  unfold walkPhase walkTail
  rw [hlog]

theorem RepoHandler_decomp (env : RepoEnv) (hacq : acqOk env)
    (hhead : env.headErr = none) (hlog : env.logErr = none) :
    RepoHandler env =
      (streamPre env ++ [SSEEvent.status [("message", "Fetching commits history")]]) ++
        walkTail env := by
  rw [streamPre_eq env hacq hhead, walkPhase_eq env hlog]
  simp

theorem streamPre_no_commit (env : RepoEnv) :
    commitEvts (streamPre env ++ [SSEEvent.status [("message", "Fetching commits history")]]) = [] := by
  unfold streamPre acquirePre branchesMid
  cases env.dirExists <;> cases env.refsResult <;> simp [commitEvts]

/-! ## Terminality invariant -/

/-- A trace is well-terminated when it is nonempty, its final event is an
`error` or `complete` event, and no event before the final one is a
`complete` event. -/
def goodTrace (t : List SSEEvent) : Prop :=
  (∃ e, t.getLast? = some e ∧ isTerminalEvt e = true) ∧
    t.dropLast.all (fun e => !isCompleteEvt e) = true

theorem goodTrace_single (e : SSEEvent) (he : isTerminalEvt e = true) :
    goodTrace [e] :=
  ⟨⟨e, rfl, he⟩, rfl⟩

theorem goodTrace_cons (e : SSEEvent) (t : List SSEEvent)
    (he : isCompleteEvt e = false) (ht : goodTrace t) : goodTrace (e :: t) := by
  obtain ⟨⟨x, hx, hxt⟩, hall⟩ := ht
  cases t with
  | nil => simp at hx
  | cons b l =>
    refine ⟨⟨x, ?_, hxt⟩, ?_⟩
    · rw [List.getLast?_cons_cons]
      exact hx
    · have hdrop : (e :: b :: l).dropLast = e :: (b :: l).dropLast := rfl
      rw [hdrop, List.all_cons, hall, he]
      rfl

theorem goodTrace_append (es t : List SSEEvent)
    (hes : es.all (fun e => !isCompleteEvt e) = true) (ht : goodTrace t) :
    goodTrace (es ++ t) := by
  induction es with
  | nil => simpa using ht
  | cons e es ih =>
    rw [List.all_cons, Bool.and_eq_true] at hes
    exact goodTrace_cons e _ (by simpa using hes.1) (ih hes.2)

theorem runWalk_not_complete (cs : List CommitInfo) :
    ((runWalk cs).1).all (fun e => !isCompleteEvt e) = true := by
  rw [List.all_eq_true]
  intro e he
  rcases runWalk_mem cs e he with ⟨c, _, rfl⟩
  rfl

theorem goodTrace_walkPhase (env : RepoEnv) : goodTrace (walkPhase env) := by
  unfold walkPhase
  cases env.logErr with
  | some e =>
    apply goodTrace_cons
    · rfl
    · exact goodTrace_single _ rfl
  | none =>
    apply goodTrace_cons
    · rfl
    · rw [List.append_assoc]
      apply goodTrace_append _ _ (runWalk_not_complete env.commits)
      cases (runWalk env.commits).2 with
      | some m =>
        apply goodTrace_cons
        · rfl
        · exact goodTrace_single _ rfl
      | none => exact goodTrace_single _ rfl

theorem goodTrace_branchesPhase (env : RepoEnv) : goodTrace (branchesPhase env) := by
  unfold branchesPhase
  apply goodTrace_cons
  · rfl
  · apply goodTrace_append _ _ ?_ (goodTrace_walkPhase env)
    cases env.refsResult <;> rfl

theorem goodTrace_headPhase (env : RepoEnv) : goodTrace (headPhase env) := by
  unfold headPhase
  cases env.headErr with
  | some e => exact goodTrace_single _ rfl
  | none => exact goodTrace_branchesPhase env

/-! ## Sink correspondence -/

theorem send1_spec (e : SSEEvent) (s : Sink) :
    send1 e s =
      ⟨s.connected, s.written ++ (if s.connected then [e] else []),
       s.attempts ++ [e]⟩ := by
  unfold send1 sendSSEMessage
  cases s.connected <;> simp

theorem runWalkSink_spec (cs : List CommitInfo) (s : Sink) :
    runWalkSink cs s =
      (⟨s.connected, s.written ++ (if s.connected then (runWalk cs).1 else []),
        s.attempts ++ (runWalk cs).1⟩,
       (runWalk cs).2) := by
  induction cs generalizing s with
  | nil => simp [runWalkSink, runWalk]
  | cons c rest ih =>
    cases hc : c.readErr with
    | some m => simp [runWalkSink, runWalk, hc]
    | none =>
      rw [runWalkSink, runWalk]
      simp only [hc]
      rw [ih, send1_spec]
      cases s.connected <;> simp

theorem walkPhaseSink_spec (env : RepoEnv) (s : Sink) :
    walkPhaseSink env s =
      ⟨s.connected, s.written ++ (if s.connected then walkPhase env else []),
       s.attempts ++ walkPhase env⟩ := by
  cases hlog : env.logErr with
  | some e =>
    simp only [walkPhaseSink, walkPhase, hlog, send1_spec]
    cases s.connected <;> simp
  | none =>
    simp only [walkPhaseSink, walkPhase, hlog, send1_spec, runWalkSink_spec]
    cases (runWalk env.commits).2 <;> simp only [send1_spec] <;>
      cases s.connected <;> simp

theorem branchesPhaseSink_spec (env : RepoEnv) (s : Sink) :
    branchesPhaseSink env s =
      ⟨s.connected, s.written ++ (if s.connected then branchesPhase env else []),
       s.attempts ++ branchesPhase env⟩ := by
  cases hrefs : env.refsResult <;>
    simp only [branchesPhaseSink, branchesPhase, hrefs, send1_spec, walkPhaseSink_spec] <;>
    cases s.connected <;> simp

theorem headPhaseSink_spec (env : RepoEnv) (s : Sink) :
    headPhaseSink env s =
      ⟨s.connected, s.written ++ (if s.connected then headPhase env else []),
       s.attempts ++ headPhase env⟩ := by
  cases hhead : env.headErr with
  | some e => simp only [headPhaseSink, headPhase, hhead, send1_spec]
  | none =>
    simp only [headPhaseSink, headPhase, hhead]
    exact branchesPhaseSink_spec env s

/-! ## Branch-listing lemmas -/

theorem getBranches_foldl (refs : List String) (acc : List String) :
    refs.foldl (fun acc r => if isBranch r then acc ++ [shortName r] else acc) acc
      = acc ++ (refs.filter fun r => isBranch r).map shortName := by
  induction refs generalizing acc with
  | nil => simp
  | cons r rest ih =>
    cases hr : isBranch r <;>
      simp [List.foldl_cons, hr, ih, List.filter_cons]

theorem goAppend_alloc {α : Type} (l : List α) (a : α) :
    goAppend (GoSlice.alloc l) a = GoSlice.alloc (l ++ [a]) := rfl

theorem branchesFoldGo (refs : List String) (l : List String) :
    refs.foldl (fun s r => if isBranch r then goAppend s (shortName r) else s)
        (GoSlice.alloc l)
      = GoSlice.alloc (l ++ (refs.filter fun r => isBranch r).map shortName) := by
  induction refs generalizing l with
  | nil => simp
  | cons r rest ih =>
    cases hr : isBranch r <;>
      simp [List.foldl_cons, hr, goAppend_alloc, ih, List.filter_cons]

/-! ## Branch-failure lemmas -/

theorem walkTail_no_branches (env : RepoEnv) :
    (walkTail env).countP isBranchesEvt = 0 := by
  rw [List.countP_eq_zero]
  intro e he
  unfold walkTail at he
  rw [List.mem_append, List.mem_append] at he
  rcases he with (he | he) | he
  · rcases runWalk_mem _ e he with ⟨c, _, rfl⟩
    simp [isBranchesEvt]
  · cases h2 : (runWalk env.commits).2 <;> rw [h2] at he <;> simp at he
    subst he
    simp [isBranchesEvt]
  · simp at he
    subst he
    simp [completeEvt, isBranchesEvt]

theorem streamPre_no_branchesEvt (env : RepoEnv) (msg : String)
    (hrefs : env.refsResult = Except.error msg) :
    (streamPre env).countP isBranchesEvt = 0 := by
  unfold streamPre acquirePre branchesMid
  rw [hrefs]
  cases env.dirExists <;> simp [isBranchesEvt]

theorem streamPre_mem_branchError (env : RepoEnv) (msg : String)
    (hrefs : env.refsResult = Except.error msg) :
    SSEEvent.error ("Failed to get branches: " ++ msg) ∈ streamPre env := by
  unfold streamPre branchesMid
  rw [hrefs]
  simp

/-! ## Claims -/

/-- C1: for a session whose acquisition, HEAD lookup and log setup succeed
and whose history walk yields all N commits without a read failure, the
stream contains exactly those N commit events, in the walker's traversal
order, and the commit block is followed by exactly one terminal event — the
`complete` event that ends the trace; no commit event occurs anywhere else. -/
theorem c1_stream_exactly_walked_commits (env : RepoEnv) (hacq : acqOk env)
    (hhead : env.headErr = none) (hlog : env.logErr = none)
    (hread : ∀ c ∈ env.commits, c.readErr = none) :
    commitEvts (RepoHandler env) = env.commits.map mkCommitPayload
    ∧ ∃ P, RepoHandler env =
          P ++ (env.commits.map fun c => SSEEvent.commit (mkCommitPayload c))
            ++ [completeEvt env]
        ∧ commitEvts P = [] := by
  have hdec := RepoHandler_decomp env hacq hhead hlog
  have hwalk : walkTail env =
      (env.commits.map fun c => SSEEvent.commit (mkCommitPayload c)) ++ [completeEvt env] := by
    unfold walkTail
    rw [runWalk_all_readable env.commits hread]
    simp
  constructor
  · rw [hdec, hwalk, commitEvts_append, streamPre_no_commit, commitEvts_append,
      commitEvts_map_commit]
    simp [commitEvts, completeEvt]
  · refine ⟨streamPre env ++ [SSEEvent.status [("message", "Fetching commits history")]],
      ?_, streamPre_no_commit env⟩
    rw [hdec, hwalk]
    simp [List.append_assoc]

/-- Witness for C1 at a concrete healthy two-commit environment. -/
theorem c1_stream_exactly_walked_commits_witness :
    commitEvts (RepoHandler envHealthy) = envHealthy.commits.map mkCommitPayload
    ∧ ∃ P, RepoHandler envHealthy =
          P ++ (envHealthy.commits.map fun c => SSEEvent.commit (mkCommitPayload c))
            ++ [completeEvt envHealthy]
        ∧ commitEvts P = [] :=
  c1_stream_exactly_walked_commits envHealthy (by decide) (by decide) (by decide)
    (by decide)

/-- C2 counterexample: when the log iterator aborts on an unreadable commit,
`RepoHandler` emits an `error` event and then still emits a `complete`
event, so the session contains two events of the terminal kinds and the
`error` event is followed by further events — the claim's "exactly one
Complete or Error event terminates a session; no events are emitted after
the terminal event" is false on this concrete run. -/
theorem c2_counterexample :
    (RepoHandler envWalkAbort).countP (fun e => isTerminalEvt e) = 2
    ∧ (RepoHandler envWalkAbort).getLast? = some (completeEvt envWalkAbort) := by
  decide

/-- C2 (amended): every session trace is nonempty and ends with an `error`
or `complete` event, and a `complete` event is emitted at most once, only as
the final event; `error` events, however, are not terminal — a branches or
commit-iteration `error` event may be followed by further events. -/
theorem c2_terminal_event_always (env : RepoEnv) : goodTrace (RepoHandler env) := by
  unfold RepoHandler
  apply goodTrace_cons
  · rfl
  · cases env.dirExists with
    | true =>
      rw [if_pos rfl]
      apply goodTrace_cons
      · rfl
      · cases env.openErr with
        | some e => exact goodTrace_single _ rfl
        | none => exact goodTrace_headPhase env
    | false =>
      rw [if_neg (by simp)]
      apply goodTrace_cons
      · rfl
      · cases env.cloneErr with
        | some e => exact goodTrace_single _ rfl
        | none =>
          apply goodTrace_cons
          · rfl
          · exact goodTrace_headPhase env

/-- C3 (code bug): the check-then-clone acquisition from main.go, run for
two concurrent requests with the same identifier over an initially empty
store.  Under the interleaving check/check/clone/clone, two clone
operations execute and the second request ends failed (its clone hits the
now-existing directory) — against the claimed exactly-one-clone with both
requests obtaining a usable handle.  Under the sequential schedule the
claimed behavior does hold: one clone, both requests get handles. -/
theorem c3_race_two_clones :
    (runSched raceInit [true, false, true, false]).store.cloneAttempts = 2
    ∧ (runSched raceInit [true, false, true, false]).first = AcqPhase.gotHandle
    ∧ (runSched raceInit [true, false, true, false]).second = AcqPhase.failed
    ∧ (runSched raceInit [true, true, false, false]).store.cloneAttempts = 1
    ∧ (runSched raceInit [true, true, false, false]).first = AcqPhase.gotHandle
    ∧ (runSched raceInit [true, true, false, false]).second = AcqPhase.gotHandle := by
  decide

/-- C4 (amended): `sendSSEMessage` discards write and flush failures, so a
failed send has no effect on control flow — for any sink state, connected or
not, the orchestrator attempts exactly the same full event sequence
(`attempts` grows by the whole trace), while a disconnected sink delivers
nothing (`written` grows only when connected).  In particular, after a
failed send every remaining walker iteration and send attempt still
occurs. -/
theorem c4_sends_ignored (env : RepoEnv) (s : Sink) :
    RepoHandlerSink env s =
      ⟨s.connected, s.written ++ (if s.connected then RepoHandler env else []),
       s.attempts ++ RepoHandler env⟩ := by
  cases hdir : env.dirExists with
  | true =>
    cases hopen : env.openErr with
    | some e =>
      simp only [RepoHandlerSink, RepoHandler, hdir, hopen, send1_spec]
      cases s.connected <;> simp
    | none =>
      simp only [RepoHandlerSink, RepoHandler, hdir, hopen, send1_spec,
        headPhaseSink_spec]
      cases s.connected <;> simp
  | false =>
    cases hclone : env.cloneErr with
    | some e =>
      simp only [RepoHandlerSink, RepoHandler, hdir, hclone, send1_spec]
      cases s.connected <;> simp
    | none =>
      simp only [RepoHandlerSink, RepoHandler, hdir, hclone, send1_spec,
        headPhaseSink_spec]
      cases s.connected <;> simp

/-- C4 counterexample: with the consumer disconnected from the start (every
send fails, and nothing is ever delivered), the orchestrator still attempts
the entire event sequence — more events after the first failed send,
including both walker-produced commit events — instead of stopping. -/
theorem c4_counterexample :
    (RepoHandlerSink envHealthy ⟨false, [], []⟩).written = []
    ∧ 1 < (RepoHandlerSink envHealthy ⟨false, [], []⟩).attempts.length
    ∧ 2 ≤ (RepoHandlerSink envHealthy ⟨false, [], []⟩).attempts.countP isCommitEvt := by
  decide

/-- C5 counterexample: in a walk over commits `aaa`, `ddd` (unreadable),
`ccc` (readable), the readable commit `ccc` after the broken one is never
emitted — only `aaa` is — refuting "every remaining readable commit is still
emitted"; the session still ends with its `complete` event. -/
theorem c5_counterexample :
    cAfter ∈ envBrokenMiddle.commits ∧ cAfter.readErr = none ∧ cAfter.hash = "ccc"
    ∧ (commitEvts (RepoHandler envBrokenMiddle)).map (fun p => p.hash) = ["aaa"]
    ∧ (RepoHandler envBrokenMiddle).getLast? = some (completeEvt envBrokenMiddle) := by
  decide

/-- C5 (amended): an unreadable commit object aborts the walk: the commits
before it are emitted, then a single "Error processing commits" event, then
the `complete` event; the commits after the broken element — readable or not
— are not emitted, and no commit event occurs elsewhere. -/
theorem c5_walk_abort (env : RepoEnv) (pre : List CommitInfo) (c : CommitInfo)
    (post : List CommitInfo) (m : String) (hacq : acqOk env)
    (hhead : env.headErr = none) (hlog : env.logErr = none)
    (hsplit : env.commits = pre ++ c :: post)
    (hpre : ∀ p ∈ pre, p.readErr = none) (hc : c.readErr = some m) :
    ∃ P, RepoHandler env =
        P ++ (pre.map fun p => SSEEvent.commit (mkCommitPayload p))
          ++ [SSEEvent.error ("Error processing commits: " ++ m), completeEvt env]
      ∧ commitEvts P = [] := by
  have hdec := RepoHandler_decomp env hacq hhead hlog
  have hwalk : walkTail env =
      (pre.map fun p => SSEEvent.commit (mkCommitPayload p))
        ++ [SSEEvent.error ("Error processing commits: " ++ m), completeEvt env] := by
    unfold walkTail
    rw [hsplit, runWalk_split pre c post m hpre hc]
    simp
  refine ⟨streamPre env ++ [SSEEvent.status [("message", "Fetching commits history")]],
    ?_, streamPre_no_commit env⟩
  rw [hdec, hwalk]
  simp [List.append_assoc]

/-- Witness for C5 at a concrete walk aborting on its second commit. -/
theorem c5_walk_abort_witness :
    ∃ P, RepoHandler envWalkAbort =
        P ++ ([cGood].map fun p => SSEEvent.commit (mkCommitPayload p))
          ++ [SSEEvent.error ("Error processing commits: " ++ "object not found"),
              completeEvt envWalkAbort]
      ∧ commitEvts P = [] :=
  c5_walk_abort envWalkAbort [cGood] cBroken [] "object not found" (by decide)
    (by decide) (by decide) (by decide) (by decide) (by decide)

/-- C6: a commit whose `Stats()` call fails is still emitted as a commit
event carrying zero file stats (the `modifications` key is simply absent,
our `none`, so the carried stat list is empty), the walk continues through
every remaining commit, and the session still ends with its `complete`
event. -/
theorem c6_stats_failure_nonfatal (env : RepoEnv) (hacq : acqOk env)
    (hhead : env.headErr = none) (hlog : env.logErr = none)
    (hread : ∀ c ∈ env.commits, c.readErr = none) :
    commitEvts (RepoHandler env) = env.commits.map mkCommitPayload
    ∧ (∀ c ∈ env.commits, c.statsResult = none →
        (mkCommitPayload c).modifications.getD [] = [])
    ∧ (RepoHandler env).getLast? = some (completeEvt env) := by
  have hdec := RepoHandler_decomp env hacq hhead hlog
  have hwalk : walkTail env =
      (env.commits.map fun c => SSEEvent.commit (mkCommitPayload c))
        ++ [completeEvt env] := by
    unfold walkTail
    rw [runWalk_all_readable env.commits hread]
    simp
  refine ⟨?_, ?_, ?_⟩
  · rw [hdec, hwalk, commitEvts_append, streamPre_no_commit, commitEvts_append,
      commitEvts_map_commit]
    simp [commitEvts, completeEvt]
  · intro c _ hcs
    simp [mkCommitPayload, hcs]
  · rw [hdec, hwalk, ← List.append_assoc]
    exact List.getLast?_concat _

/-- Witness for C6 at a concrete environment whose second commit has a
failed stats computation. -/
theorem c6_stats_failure_nonfatal_witness :
    commitEvts (RepoHandler envHealthy) = envHealthy.commits.map mkCommitPayload
    ∧ (∀ c ∈ envHealthy.commits, c.statsResult = none →
        (mkCommitPayload c).modifications.getD [] = [])
    ∧ (RepoHandler envHealthy).getLast? = some (completeEvt envHealthy) :=
  c6_stats_failure_nonfatal envHealthy (by decide) (by decide) (by decide) (by decide)

/-- C7 counterexample: when branch enumeration fails, the session emits the
branches `error` event and continues streaming commits to `complete`, but no
`branches` event — empty or otherwise — ever appears, refuting "degrades to
an empty branch list". -/
theorem c7_counterexample :
    (RepoHandler envBranchFail).countP isBranchesEvt = 0
    ∧ SSEEvent.error ("Failed to get branches: reference storage unreadable")
        ∈ RepoHandler envBranchFail
    ∧ (commitEvts (RepoHandler envBranchFail)).map (fun p => p.hash) = ["aaa"]
    ∧ (RepoHandler envBranchFail).getLast? = some (completeEvt envBranchFail) := by
  decide

/-- C7 (amended): if branch enumeration fails, the session emits an `error`
event for branches, emits no `branches` event at all (the client simply
receives no branch data), and still streams every commit event and ends with
the `complete` event — branch-listing failure is never fatal to commit
streaming. -/
theorem c7_branch_failure_nonfatal (env : RepoEnv) (msg : String) (hacq : acqOk env)
    (hhead : env.headErr = none) (hlog : env.logErr = none)
    (hrefs : env.refsResult = Except.error msg)
    (hread : ∀ c ∈ env.commits, c.readErr = none) :
    (RepoHandler env).countP isBranchesEvt = 0
    ∧ SSEEvent.error ("Failed to get branches: " ++ msg) ∈ RepoHandler env
    ∧ commitEvts (RepoHandler env) = env.commits.map mkCommitPayload
    ∧ (RepoHandler env).getLast? = some (completeEvt env) := by
  have hdec := RepoHandler_decomp env hacq hhead hlog
  have hwalk : walkTail env =
      (env.commits.map fun c => SSEEvent.commit (mkCommitPayload c))
        ++ [completeEvt env] := by
    unfold walkTail
    rw [runWalk_all_readable env.commits hread]
    simp
  refine ⟨?_, ?_, ?_, ?_⟩
  · rw [hdec, List.countP_append, List.countP_append,
      streamPre_no_branchesEvt env msg hrefs, walkTail_no_branches]
    simp [isBranchesEvt]
  · rw [hdec]
    exact List.mem_append_left _
      (List.mem_append_left _ (streamPre_mem_branchError env msg hrefs))
  · rw [hdec, hwalk, commitEvts_append, streamPre_no_commit, commitEvts_append,
      commitEvts_map_commit]
    simp [commitEvts, completeEvt]
  · rw [hdec, hwalk, ← List.append_assoc]
    exact List.getLast?_concat _

/-- Witness for C7 at a concrete branch-enumeration failure. -/
theorem c7_branch_failure_nonfatal_witness :
    (RepoHandler envBranchFail).countP isBranchesEvt = 0
    ∧ SSEEvent.error ("Failed to get branches: " ++ "reference storage unreadable")
        ∈ RepoHandler envBranchFail
    ∧ commitEvts (RepoHandler envBranchFail) = envBranchFail.commits.map mkCommitPayload
    ∧ (RepoHandler envBranchFail).getLast? = some (completeEvt envBranchFail) :=
  c7_branch_failure_nonfatal envBranchFail "reference storage unreadable" (by decide)
    (by decide) (by decide) (by rfl) (by decide)

/-- C8 counterexample: a reference iterator that yields `refs/heads/zeta`
before `refs/heads/alpha` (with a tag, a remote-tracking ref and HEAD
interleaved) produces the branch list `["zeta", "alpha"]` — the tag and
remote refs are excluded, but the emission order is the iterator's, not
lexicographic. -/
theorem c8_counterexample :
    getBranches c8refs = ["zeta", "alpha"]
    ∧ sortedLe (getBranches c8refs) = false := by
  decide

/-- C8 (amended): both emission points produce exactly the local branch
references (`refs/heads/` names, shortened), excluding tags and
remote-tracking refs, in the order the reference iterator yields them; no
lexicographic sort is applied, so the order is stable only insofar as the
underlying iterator's order is. -/
theorem c8_branch_filter_iterator_order :
    (∀ refs : List String,
        getBranches refs = (refs.filter fun r => isBranch r).map shortName)
    ∧ (∀ (enc : String → String) (refs : List String),
        BranchesHandler enc refs =
          goMarshalSlice enc
            (GoSlice.alloc ((refs.filter fun r => isBranch r).map shortName)) ++ "\n") := by
  constructor
  · intro refs
    unfold getBranches
    rw [getBranches_foldl refs []]
    simp
  · intro enc refs
    unfold BranchesHandler
    rw [branchesFoldGo refs []]
    simp

/-- C9 counterexample: for a commit authored 2024-03-05 10:20:30 at offset
+05:00, the derived commit-listing endpoint serializes the `date` field with
Go's default `time.Time.String()` rendering — space-separated, with a
doubled numeric zone and no `T` — which differs from the RFC3339
serialization of the same timestamp. -/
theorem c9_counterexample :
    (commitEntry cGood).lookup "date" = some "2024-03-05 10:20:30 +0500 +0500"
    ∧ formatRFC3339 cGood.when = "2024-03-05T10:20:30+05:00"
    ∧ (commitEntry cGood).lookup "date" ≠ some (formatRFC3339 cGood.when) := by
  decide

/-- C9 (amended): every commit event on the ingestion stream carries a
`date` that is the RFC3339 serialization (timezone offset preserved) of the
author timestamp of a walked commit; the derived commit-listing endpoint
instead carries `Author.When.String()`, Go's default (locale-independent but
non-RFC3339) time rendering. -/
theorem c9_stream_dates_rfc3339 (env : RepoEnv) (hacq : acqOk env)
    (hhead : env.headErr = none) (hlog : env.logErr = none) :
    (∀ p ∈ commitEvts (RepoHandler env),
      ∃ c ∈ env.commits, p.hash = c.hash ∧ p.date = formatRFC3339 c.when)
    ∧ (∀ c : CommitInfo, (commitEntry c).lookup "date" = some (goTimeString c.when)) := by
  constructor
  · intro p hp
    have hdec := RepoHandler_decomp env hacq hhead hlog
    rw [hdec, mem_commitEvts, List.mem_append] at hp
    rcases hp with hp | hp
    · exfalso
      have h1 : p ∈ commitEvts
          (streamPre env ++ [SSEEvent.status [("message", "Fetching commits history")]]) :=
        (mem_commitEvts p _).mpr hp
      rw [streamPre_no_commit] at h1
      simp at h1
    · unfold walkTail at hp
      rw [List.mem_append, List.mem_append] at hp
      rcases hp with (hp | hp) | hp
      · rcases runWalk_mem _ _ hp with ⟨c, hc, hce⟩
        rw [SSEEvent.commit.injEq] at hce
        exact ⟨c, hc, by rw [hce]; rfl, by rw [hce]; rfl⟩
      · exfalso
        cases h2 : (runWalk env.commits).2 <;> rw [h2] at hp <;> simp at hp
      · exfalso
        simp [completeEvt] at hp
  · intro c
    rfl

/-- Witness for C9 at a concrete healthy environment. -/
theorem c9_stream_dates_rfc3339_witness :
    (∀ p ∈ commitEvts (RepoHandler envHealthy),
      ∃ c ∈ envHealthy.commits, p.hash = c.hash ∧ p.date = formatRFC3339 c.when)
    ∧ (∀ c : CommitInfo, (commitEntry c).lookup "date" = some (goTimeString c.when)) :=
  c9_stream_dates_rfc3339 envHealthy (by decide) (by decide) (by decide)

/-- C10: with zero commits walked, `CommitsHandler` marshals its
never-appended nil slice as JSON `null`, while `BranchesHandler` — whose
slice is allocated empty before the reference loop — marshals zero branches
as the empty JSON array `[]` (each followed by the encoder's newline). -/
theorem c10_nil_vs_empty (enc : List (String × String) → String)
    (senc : String → String) (refs : List String)
    (hrefs : ∀ r ∈ refs, isBranch r = false) :
    CommitsHandler enc [] = "null" ++ "\n"
    ∧ BranchesHandler senc refs = "[]" ++ "\n" := by
  constructor
  · rfl
  · unfold BranchesHandler
    rw [branchesFoldGo refs []]
    have hfil : refs.filter (fun r => isBranch r) = [] := by
      rw [List.filter_eq_nil_iff]
      intro a ha
      simp [hrefs a ha]
    rw [hfil]
    rfl

/-- Witness for C10: no commits, and a reference set holding only a tag. -/
theorem c10_nil_vs_empty_witness :
    CommitsHandler (fun _ => "") [] = "null" ++ "\n"
    ∧ BranchesHandler (fun s => s) ["refs/tags/v1.0"] = "[]" ++ "\n" :=
  c10_nil_vs_empty (fun _ => "") (fun s => s) ["refs/tags/v1.0"] (by decide)

end InsightsRepo
